import Mathlib

/-!
Verification of the ppk2 host-side driver (Rust) against its natural-language
specification.  The definitions below are a shallow embedding of the Rust
sources:

* src/types.rs     — Level, LogicPortPins, SourceVoltage, Metadata and its parser
* src/cmd.rs       — Command, expected_response_len, response_complete, CommandBytes
* src/measurement.rs — MeasurementAccumulator, feed_into, get_adc_result,
                       combine / combine_matching, bit-field extraction

Modelling conventions:
* Rust machine integers (u8, u16, u32, usize) are modelled as Nat; wrapping or
  masking is written explicitly where the source performs it.  Unsigned
  subtraction that would underflow (a Rust panic) is modelled by returning
  Option.none from the function that contains it.
* Rust f32 arithmetic is modelled exactly over the rationals; the evaluation
  order of the source is preserved.  IEEE rounding, infinities and NaN are
  abstracted away (no claim below depends on them).
* Rust panics (integer underflow, array index out of bounds, Option::unwrap on
  None) are modelled as Option.none results.
* Byte buffers are List Nat, strings are List Char (the UTF-8 decoding step of
  Metadata::from_bytes is abstracted: the parser takes the decoded character
  sequence as input).
-/

/-! ## Data model (src/types.rs) -/

/-- Logic level for logic port pins (types.rs, enum Level). -/
inductive Level where
  | Low
  | High
  | Either
deriving DecidableEq, Repr

/-- Level::is_high (types.rs). -/
def Level.is_high : Level → Bool
  | .High => true
  | _ => false

/-- Level::is_low (types.rs). -/
def Level.is_low : Level → Bool
  | .Low => true
  | _ => false

/-- Level::matches (types.rs): Either matches anything, otherwise levels must
be equal.  The match arms are in source order. -/
def Level.matches : Level → Level → Bool
  | _, .Either => true
  | .Either, _ => true
  | .Low, .Low => true
  | .High, .High => true
  | _, _ => false

/-- Logic port state (types.rs, struct LogicPortPins): an array of 8 levels. -/
structure LogicPortPins where
  pin_levels : Fin 8 → Level

instance : DecidableEq LogicPortPins := fun a b =>
  decidable_of_iff (a.pin_levels = b.pin_levels) (by cases a; cases b; simp)

/-- From<[bool; 8]> for LogicPortPins (types.rs): true maps to High, false to
Low (via From<bool> for Level). -/
def LogicPortPins.ofBools (pin_bools : Fin 8 → Bool) : LogicPortPins :=
  ⟨fun i => if pin_bools i then .High else .Low⟩

/-- From<u8> for LogicPortPins (types.rs): bit i of the byte becomes pin i.
From<u32> first truncates to u8 (v as u8), modelled by the mod 256. -/
def LogicPortPins.ofByte (inner : Nat) : LogicPortPins :=
  LogicPortPins.ofBools (fun i => decide ((inner % 256) &&& (1 <<< (i : Nat)) ≠ 0))

/-- Device source voltage (types.rs, struct SourceVoltage): the raw 2-byte wire
encoding. -/
structure SourceVoltage where
  raw0 : Nat
  raw1 : Nat
deriving DecidableEq, Repr

/-- SourceVoltage::from_millivolts (types.rs): clamp to [800, 5000], then
encode.  Rust u16 clamp written out; the subtraction cannot underflow because
the clamp guarantees mv ≥ 800. -/
def SourceVoltage.from_millivolts (mv : Nat) : SourceVoltage :=
  let mv := if mv < 800 then 800 else if mv > 5000 then 5000 else mv
  let diff_to_baseline := mv - 800 + 32
  let ratio := diff_to_baseline / 256
  let remainder := diff_to_baseline % 256
  { raw0 := ratio + 3, raw1 := remainder }

/-- Device current measurement mode (types.rs, enum MeasurementMode):
Ampere = 0x01, Source = 0x02; Source is the Default. -/
inductive MeasurementMode where
  | Ampere
  | Source
deriving DecidableEq, Repr

/-- Device power (types.rs, enum DevicePower): Disabled = 0x00, Enabled = 0x01. -/
inductive DevicePower where
  | Disabled
  | Enabled
deriving DecidableEq, Repr

/-- IntoPrimitive for MeasurementMode. -/
def MeasurementMode.toByte : MeasurementMode → Nat
  | .Ampere => 0x01
  | .Source => 0x02

/-- IntoPrimitive for DevicePower. -/
def DevicePower.toByte : DevicePower → Nat
  | .Disabled => 0x00
  | .Enabled => 0x01

/-- Calibration modifiers (types.rs, struct Modifiers): seven arrays of five
f32 values, indexed by range 0..=4.  f32 is modelled as ℚ. -/
structure Modifiers where
  r : Fin 5 → ℚ
  gs : Fin 5 → ℚ
  gi : Fin 5 → ℚ
  o : Fin 5 → ℚ
  s : Fin 5 → ℚ
  i : Fin 5 → ℚ
  ug : Fin 5 → ℚ

/-- Default for Modifiers (types.rs). -/
def Modifiers.default : Modifiers where
  r := ![1031.64, 101.65, 10.15, 0.94, 0.043]
  gs := ![1, 1, 1, 1, 1]
  gi := ![1, 1, 1, 1, 1]
  o := ![0, 0, 0, 0, 0]
  s := ![0, 0, 0, 0, 0]
  i := ![0, 0, 0, 0, 0]
  ug := ![1, 1, 1, 1, 1]

/-- Parsed device metadata (types.rs, struct Metadata). -/
structure Metadata where
  modifiers : Modifiers
  calibrated : Bool
  vdd : Nat
  hw : Nat
  mode : MeasurementMode
  ia : Nat

/-- Default for Metadata (derived in types.rs: default modifiers, false, 0, 0,
default mode = Source, 0). -/
def Metadata.default : Metadata where
  modifiers := Modifiers.default
  calibrated := false
  vdd := 0
  hw := 0
  mode := .Source
  ia := 0

/-! ## Command codec (src/cmd.rs) -/

/-- Serial command opcodes (cmd.rs, enum Command). -/
inductive Command where
  | NoOp
  | TriggerSet
  | AvgNumSet
  | TriggerWindowSet
  | TriggerIntervalSet
  | TriggerSingleSet
  | AverageStart
  | AverageStop
  | RangeSet
  | LcdSet
  | TriggerStop
  | DeviceRunningSet (p : DevicePower)
  | RegulatorSet (v : SourceVoltage)
  | SwitchPointDown
  | SwitchPointUp
  | TriggerExtToggle
  | SetPowerMode (m : MeasurementMode)
  | ResUserSet
  | SpikeFilteringOn
  | SpikeFilteringOff
  | GetMetaData
  | Reset
  | SetUserGains
deriving DecidableEq, Repr

/-- Command::expected_response_len (cmd.rs): 512 for GetMetaData, 0 for every
other command.  All match arms of the source are listed. -/
def Command.expected_response_len : Command → Nat
  | .NoOp => 0
  | .TriggerSet => 0
  | .AvgNumSet => 0
  | .TriggerWindowSet => 0
  | .TriggerIntervalSet => 0
  | .TriggerSingleSet => 0
  | .AverageStart => 0
  | .AverageStop => 0
  | .RangeSet => 0
  | .LcdSet => 0
  | .TriggerStop => 0
  | .DeviceRunningSet _ => 0
  | .RegulatorSet _ => 0
  | .SwitchPointDown => 0
  | .SwitchPointUp => 0
  | .TriggerExtToggle => 0
  | .SetPowerMode _ => 0
  | .ResUserSet => 0
  | .SpikeFilteringOn => 0
  | .SpikeFilteringOff => 0
  | .GetMetaData => 512
  | .Reset => 0
  | .SetUserGains => 0

/-- Rust slice ends_with: the buffer ends with the given suffix. -/
def listEndsWith {α : Type} [DecidableEq α] (l suffix : List α) : Bool :=
  decide (suffix.length ≤ l.length) && decide (l.drop (l.length - suffix.length) = suffix)

/-- Command::response_complete (cmd.rs).  For GetMetaData: the response ends
with the bytes of "END\n" (0x45 0x4E 0x44 0x0A).  For every other command the
source compares self.expected_response_len() >= response.len() (in that
order). -/
def Command.response_complete (c : Command) (response : List Nat) : Bool :=
  match c with
  | .GetMetaData => listEndsWith response [0x45, 0x4E, 0x44, 0x0A]
  | _ => decide (c.expected_response_len ≥ response.length)

/-- One step of the CommandBytes iterator (cmd.rs, impl Iterator for
CommandBytes): the byte produced for a command at a given index, None when the
sequence is exhausted.  The match arms are in source order;
vdd.raw()[i - 1] for i in 1..=2 is written as the two explicit arms. -/
def commandByte (cmd : Command) (index : Nat) : Option Nat :=
  match cmd, index with
  | .NoOp, 0 => some 0x00
  | .TriggerSet, 0 => some 0x01
  | .AvgNumSet, 0 => some 0x02
  | .TriggerWindowSet, 0 => some 0x03
  | .TriggerIntervalSet, 0 => some 0x04
  | .TriggerSingleSet, 0 => some 0x05
  | .AverageStart, 0 => some 0x06
  | .AverageStop, 0 => some 0x07
  | .RangeSet, 0 => some 0x08
  | .LcdSet, 0 => some 0x09
  | .TriggerStop, 0 => some 0x0A
  | .DeviceRunningSet _, 0 => some 0x0C
  | .DeviceRunningSet pwr, 1 => some pwr.toByte
  | .RegulatorSet _, 0 => some 0x0D
  | .RegulatorSet vdd, 1 => some vdd.raw0
  | .RegulatorSet vdd, 2 => some vdd.raw1
  | .SwitchPointDown, 0 => some 0x0E
  | .SwitchPointUp, 0 => some 0x0F
  | .TriggerExtToggle, 0 => some 0x10
  | .SetPowerMode _, 0 => some 0x11
  | .SetPowerMode mode, 1 => some mode.toByte
  | .ResUserSet, 0 => some 0x12
  | .SpikeFilteringOn, 0 => some 0x15
  | .SpikeFilteringOff, 0 => some 0x16
  | .GetMetaData, 0 => some 0x19
  | .Reset, 0 => some 0x20
  | .SetUserGains, 0 => some 0x25
  | _, _ => none

/-- Collect the bytes the CommandBytes iterator yields before its first None,
starting at the given index.  The fuel bounds the collection; every command
yields at most 3 bytes (indices 0, 1, 2), so fuel 4 is enough. -/
def collectBytes (cmd : Command) (index fuel : Nat) : List Nat :=
  match fuel with
  | 0 => []
  | fuel + 1 =>
    match commandByte cmd index with
    | some b => b :: collectBytes cmd (index + 1) fuel
    | none => []

/-- The full byte sequence of a command (cmd.rs, Command::bytes collected into
a list, as lib.rs does with Vec::from_iter). -/
def Command.bytesList (cmd : Command) : List Nat :=
  collectBytes cmd 0 4

/-! ## Sample decoding and accumulation (src/measurement.rs) -/

/-- ADC_MULTIPLIER = 1.8 / 163840 (measurement.rs). -/
def ADC_MULTIPLIER : ℚ := 1.8 / 163840

/-- SPIKE_FILTER_ALPHA = 0.18 (measurement.rs). -/
def SPIKE_FILTER_ALPHA : ℚ := 0.18

/-- SPIKE_FILTER_ALPHA_5 = 0.06 (measurement.rs). -/
def SPIKE_FILTER_ALPHA_5 : ℚ := 0.06

/-- SPIKE_FILTER_SAMPLES = 3 (measurement.rs, an isize). -/
def SPIKE_FILTER_SAMPLES : Int := 3

/-- generate_mask (measurement.rs): (2^bits - 1) << pos. -/
def generate_mask (bits pos : Nat) : Nat := (2 ^ bits - 1) <<< pos

/-- get_adc (measurement.rs, masked_value! 14 0). -/
def get_adc (raw : Nat) : Nat := (raw &&& generate_mask 14 0) >>> 0

/-- get_range (measurement.rs, masked_value! 3 14). -/
def get_range (raw : Nat) : Nat := (raw &&& generate_mask 3 14) >>> 14

/-- get_counter (measurement.rs, masked_value! 6 18). -/
def get_counter (raw : Nat) : Nat := (raw &&& generate_mask 6 18) >>> 18

/-- get_logic (measurement.rs, masked_value! 8 24). -/
def get_logic (raw : Nat) : Nat := (raw &&& generate_mask 8 24) >>> 24

/-- A single parsed measurement (measurement.rs, struct Measurement). -/
structure Measurement where
  micro_amps : ℚ
  pins : LogicPortPins
deriving DecidableEq

/-- Accumulator state (measurement.rs, struct AccumulatorState).  u8 and usize
fields are Nat, the isize field is Int, f32 is ℚ. -/
structure AccumulatorState where
  rolling_avg_4 : Option ℚ
  rolling_avg : Option ℚ
  prev_range : Option Nat
  after_spike : Int
  consecutive_range_sample : Nat
  expected_counter : Option Nat
deriving DecidableEq

/-- The range-switch suppression block of get_adc_result (measurement.rs,
lines 145-163): fires when the range changed or after_spike > 0.  Returns the
possibly overwritten adc value together with the updated state, or none when
the source would panic (Option::unwrap of a rolled-back None average). -/
def spikeFilter (state : AccumulatorState) (range : Nat)
    (prev_rolling_avg_4 prev_rolling_avg : Option ℚ) (adc : ℚ) :
    Option (ℚ × AccumulatorState) :=
  if ¬ state.prev_range = some range ∨ state.after_spike > 0 then
    let state :=
      if state.prev_range = some range then
        { state with consecutive_range_sample := 0, after_spike := SPIKE_FILTER_SAMPLES }
      else
        { state with consecutive_range_sample := state.consecutive_range_sample + 1 }
    if range = 4 then
      let state :=
        if state.consecutive_range_sample < 2 then
          { state with rolling_avg_4 := prev_rolling_avg_4, rolling_avg := prev_rolling_avg }
        else state
      match state.rolling_avg_4 with
      | none => none
      | some v => some (v, { state with after_spike := state.after_spike - 1 })
    else
      match state.rolling_avg with
      | none => none
      | some v => some (v, { state with after_spike := state.after_spike - 1 })
  else
    some (adc, state)

/-- get_adc_result (measurement.rs): per-range calibration arithmetic, the two
rolling averages (updated with their pre-update values saved first), the
get_or_insert of prev_range, the suppression block, and the final commit
prev_range := Some(range).  Indexing the five-element arrays with a range ≥ 5
would panic in Rust and is modelled as none (callers always clamp). -/
def get_adc_result (metadata : Metadata) (state : AccumulatorState)
    (range : Nat) (adc_val : Nat) : Option (ℚ × AccumulatorState) :=
  if h : range < 5 then
    let ri : Fin 5 := ⟨range, h⟩
    let m := metadata.modifiers
    let result_without_gain : ℚ := ((adc_val : ℚ) - m.o ri) * (ADC_MULTIPLIER / m.r ri)
    let adc : ℚ := m.ug ri *
      (result_without_gain * (m.gs ri * result_without_gain + m.gi ri)
        + (m.s ri * ((metadata.vdd : ℚ) / 1000) + m.i ri))
    let prev_rolling_avg_4 := state.rolling_avg_4
    let prev_rolling_avg := state.rolling_avg
    let state := { state with
      rolling_avg := some (match state.rolling_avg with
        | some rolling_avg => SPIKE_FILTER_ALPHA * adc + (1 - SPIKE_FILTER_ALPHA) * rolling_avg
        | none => adc) }
    let state := { state with
      rolling_avg_4 := some (match state.rolling_avg_4 with
        | some rolling_avg_4 =>
            SPIKE_FILTER_ALPHA_5 * adc + (1 - SPIKE_FILTER_ALPHA_5) * rolling_avg_4
        | none => adc) }
    let state := { state with prev_range := some (state.prev_range.getD range) }
    match spikeFilter state range prev_rolling_avg_4 prev_rolling_avg adc with
    | none => none
    | some (adc, state) => some (adc, { state with prev_range := some range })
  else none

/-- The per-word fall-through path of feed_into (measurement.rs, lines 88-103):
scale the ADC value, decode the pins, run get_adc_result, convert to
micro-amps, and push one Measurement.  The source's dead re-seeding branch
(expected_counter is never None at that point, it was just replaced) is kept
verbatim. -/
def adcStep (metadata : Metadata) (state : AccumulatorState)
    (range counter raw : Nat) : Option (AccumulatorState × Nat × Option Measurement) :=
  let adc_result := get_adc raw * 4
  let pins := LogicPortPins.ofByte (get_logic raw)
  match get_adc_result metadata state range adc_result with
  | none => none
  | some (amps, state) =>
    let micro_amps := amps * 10 ^ (6 : Nat)
    let state :=
      if state.expected_counter = none then { state with expected_counter := some counter }
      else state
    some (state, 0, some { micro_amps := micro_amps, pins := pins })

/-- One 32-bit word of feed_into's loop body (measurement.rs, lines 70-104):
extract the clamped range and the counter, update expected_counter to
(counter + 1) & 0x3F, and compare the previous expected counter with the
actual one.  On a mismatch no Measurement is produced and the number of missed
samples for this word is counter - prev (when prev < counter) or prev -
counter (when prev > counter).  Since counter < 64 the source's & 0x3F equals
mod 64.  Returns (new state, missed increment, optional measurement). -/
def stepWord (metadata : Metadata) (state : AccumulatorState) (raw : Nat) :
    Option (AccumulatorState × Nat × Option Measurement) :=
  let current_measurement_range := min (get_range raw) 4
  let counter := get_counter raw
  let prev_expected_counter := state.expected_counter
  let state := { state with expected_counter := some ((counter + 1) % 64) }
  match prev_expected_counter with
  | some prev_count =>
    if prev_count < counter then some (state, counter - prev_count, none)
    else if prev_count > counter then some (state, prev_count - counter, none)
    else adcStep metadata state current_measurement_range counter raw
  | none => adcStep metadata state current_measurement_range counter raw

/-- u32::from_le_bytes over four byte values. -/
def fromLeBytes (b0 b1 b2 b3 : Nat) : Nat :=
  b0 + 256 * b1 + 65536 * b2 + 16777216 * b3

/-- chunks_exact(4) followed by u32::from_le_bytes: the 32-bit words of a byte
buffer, ignoring a trailing partial chunk. -/
def chunkWords : List Nat → List Nat
  | b0 :: b1 :: b2 :: b3 :: rest => fromLeBytes b0 b1 b2 b3 :: chunkWords rest
  | _ => []

/-- Run stepWord over a list of words, appending produced measurements to the
output list and summing the missed counts (the loop of feed_into). -/
def processWords (metadata : Metadata) (state : AccumulatorState) :
    List Nat → List Measurement → Option (AccumulatorState × List Measurement × Nat)
  | [], out => some (state, out, 0)
  | w :: ws, out =>
    match stepWord metadata state w with
    | none => none
    | some (state, inc, m?) =>
      let out := match m? with
        | some m => out ++ [m]
        | none => out
      match processWords metadata state ws out with
      | none => none
      | some (state, out, missed) => some (state, out, inc + missed)

/-- Measurement accumulator (measurement.rs, struct MeasurementAccumulator). -/
structure MeasurementAccumulator where
  state : AccumulatorState
  buf : List Nat
  metadata : Metadata

/-- MeasurementAccumulator::new (measurement.rs). -/
def MeasurementAccumulator.new (metadata : Metadata) : MeasurementAccumulator where
  metadata := metadata
  state := {
    rolling_avg_4 := none
    rolling_avg := none
    prev_range := none
    after_spike := 0
    consecutive_range_sample := 0
    expected_counter := none }
  buf := []

/-- MeasurementAccumulator::feed_into (measurement.rs): an empty input returns
0 immediately; otherwise the bytes are appended to the internal buffer, all
whole 4-byte words are decoded, and the consumed bytes are drained.  Returns
the accumulator, the extended output queue and the number of missed samples
(or none where the source would panic inside get_adc_result). -/
def feedInto (acc : MeasurementAccumulator) (bytes : List Nat)
    (out : List Measurement) : Option (MeasurementAccumulator × List Measurement × Nat) :=
  if bytes = [] then some (acc, out, 0)
  else
    let buf := acc.buf ++ bytes
    let endIdx := buf.length - buf.length % 4
    match processWords acc.metadata acc.state (chunkWords (buf.take endIdx)) out with
    | none => none
    | some (state, out, missed) =>
      some ({ acc with state := state, buf := buf.drop endIdx }, out, missed)

/-- A sequence of feed_into calls, one per byte chunk, accumulating the output
queue and summing the returned missed counts. -/
def runFeeds (acc : MeasurementAccumulator) :
    List (List Nat) → List Measurement → Option (MeasurementAccumulator × List Measurement × Nat)
  | [], out => some (acc, out, 0)
  | bytes :: rest, out =>
    match feedInto acc bytes out with
    | none => none
    | some (acc, out, missed) =>
      match runFeeds acc rest out with
      | none => none
      | some (acc, out, missedRest) => some (acc, out, missed + missedRest)

/-- Total missed count of a run, when it does not panic. -/
def missedOf (r : Option (MeasurementAccumulator × List Measurement × Nat)) : Option Nat :=
  r.map (fun x => x.2.2)

/-! ## Chunk reducer (src/measurement.rs, MeasurementIterExt) -/

/-- MeasurementMatch (measurement.rs): a combined measurement or no match. -/
inductive MeasurementMatch where
  | Match (m : Measurement)
  | NoMatch
deriving DecidableEq

/-- The for_each loop of combine (measurement.rs, lines 195-207): count the
measurements, sum their micro_amps, and count per pin how many measurements
have it high. -/
def combineLoop : List Measurement → (Fin 8 → Nat) → Nat → ℚ → ((Fin 8 → Nat) × Nat × ℚ)
  | [], pin_high_count, count, sum => (pin_high_count, count, sum)
  | m :: ms, pin_high_count, count, sum =>
    combineLoop ms
      (fun i => if (m.pins.pin_levels i).is_high then pin_high_count i + 1 else pin_high_count i)
      (count + 1) (sum + m.micro_amps)

/-- combine (measurement.rs, lines 194-228): NoMatch when there are no
measurements, otherwise the average over (count - missed) and the per-pin
majority vote (pin high iff strictly more than count / 2 highs).  The source
computes count - missed on usize; when missed > count that subtraction
underflows (a Rust panic), modelled as none. -/
def combine (ms : List Measurement) (missed : Nat) : Option MeasurementMatch :=
  let acc := combineLoop ms (fun _ => 0) 0 0
  let pin_high_count := acc.1
  let count := acc.2.1
  let sum := acc.2.2
  if count = 0 then some .NoMatch
  else if missed ≤ count then
    let pins : Fin 8 → Bool := fun i => decide (pin_high_count i > count / 2)
    let avg : ℚ := sum / ((count - missed : Nat) : ℚ)
    some (.Match { micro_amps := avg, pins := LogicPortPins.ofBools pins })
  else none

/-- The filter predicate of combine_matching (measurement.rs, lines 231-237):
every pin of the measurement matches the corresponding pattern pin. -/
def measurementMatchesPins (m : Measurement) (matching_pins : LogicPortPins) : Bool :=
  decide (∀ i : Fin 8, (m.pins.pin_levels i).matches (matching_pins.pin_levels i))

/-- combine_matching (measurement.rs): filter by the pin pattern, then
combine. -/
def combine_matching (ms : List Measurement) (missed : Nat)
    (matching_pins : LogicPortPins) : Option MeasurementMatch :=
  combine (ms.filter (fun m => measurementMatchesPins m matching_pins)) missed

/-- The pin levels of a Match result, if any. -/
def pinOf : Option MeasurementMatch → Fin 8 → Option Level
  | some (.Match m), i => some (m.pins.pin_levels i)
  | _, _ => none

/-- Sum of the micro_amps of a list of measurements. -/
def sumMicroAmps (ms : List Measurement) : ℚ := (ms.map Measurement.micro_amps).sum

/-- Number of measurements whose pin i is high. -/
def highCount (ms : List Measurement) (i : Fin 8) : Nat :=
  (ms.filter (fun m => (m.pins.pin_levels i).is_high)).length

/-! ## Metadata parser (src/types.rs, Metadata::from_bytes)

The parser takes the decoded character sequence (List Char); the UTF-8 check
of the source is the one step not modelled.  f32::from_str is modelled over ℚ
on the decimal-with-exponent grammar; the inf / nan spellings accepted by Rust
are not representable in ℚ and are modelled as parse failures (no metadata key
in the claims carries them). -/

/-- Error parsing metadata (lib Error::Parse, carrying the offending line). -/
inductive MetaError where
  | Parse (line : List Char)
deriving DecidableEq

/-- ASCII digit test. -/
def isDigitChar (c : Char) : Bool := decide ('0' ≤ c) && decide (c ≤ '9')

/-- Value of a digit sequence, most significant first. -/
def natOfDigits (l : List Char) : Nat :=
  l.foldl (fun acc c => 10 * acc + (c.toNat - 48)) 0

/-- The exponent suffix of a float literal: empty means exponent 0; otherwise
an e or E, an optional sign and at least one digit; anything else is a parse
failure. -/
def parseExpPart (s : List Char) : Option Int :=
  match s with
  | [] => some 0
  | c :: rest =>
    if c = 'e' ∨ c = 'E' then
      match rest with
      | '+' :: ds => if ds ≠ [] ∧ ds.all isDigitChar then some (natOfDigits ds) else none
      | '-' :: ds => if ds ≠ [] ∧ ds.all isDigitChar then some (-(natOfDigits ds : Int)) else none
      | ds => if ds ≠ [] ∧ ds.all isDigitChar then some (natOfDigits ds) else none
    else none

/-- f32::from_str modelled over ℚ: optional sign, digits with an optional
decimal point (at least one digit in the mantissa), optional exponent. -/
def parseF32 (s : List Char) : Option ℚ :=
  let signAndRest : ℚ × List Char :=
    match s with
    | '+' :: rest => (1, rest)
    | '-' :: rest => (-1, rest)
    | _ => (1, s)
  let sign := signAndRest.1
  let s1 := signAndRest.2
  let intPart := s1.takeWhile isDigitChar
  let afterInt := s1.dropWhile isDigitChar
  match afterInt with
  | '.' :: r =>
    let fracPart := r.takeWhile isDigitChar
    let afterFrac := r.dropWhile isDigitChar
    if intPart = [] ∧ fracPart = [] then none
    else
      match parseExpPart afterFrac with
      | some e =>
        some (sign * ((natOfDigits intPart : ℚ)
          + (natOfDigits fracPart : ℚ) / 10 ^ fracPart.length) * 10 ^ e)
      | none => none
  | _ =>
    if intPart = [] then none
    else
      match parseExpPart afterInt with
      | some e => some (sign * (natOfDigits intPart : ℚ) * 10 ^ e)
      | none => none

/-- Unsigned integer from_str (u8 / u16 / u32): an optional leading plus sign,
then at least one digit, and the value must fit below the given bound. -/
def parseUnsigned (maxVal : Nat) (s : List Char) : Option Nat :=
  let s := match s with
    | '+' :: rest => rest
    | _ => s
  if s ≠ [] ∧ s.all isDigitChar then
    let v := natOfDigits s
    if v ≤ maxVal then some v else none
  else none

/-- str::split_once(": "): split at the first occurrence of a colon followed
by a space. -/
def splitOnceColonSpace : List Char → Option (List Char × List Char)
  | [] => none
  | ':' :: ' ' :: rest => some ([], rest)
  | c :: rest =>
    match splitOnceColonSpace rest with
    | some (pre, post) => some (c :: pre, post)
    | none => none

/-- Split a character list at every occurrence of the separator (the pieces do
not contain it; n separators yield n+1 pieces). -/
def splitChar (sep : Char) : List Char → List (List Char)
  | [] => [[]]
  | c :: rest =>
    if c = sep then [] :: splitChar sep rest
    else
      match splitChar sep rest with
      | [] => [[c]]
      | p :: ps => (c :: p) :: ps

/-- Strip one trailing carriage return. -/
def stripCR (l : List Char) : List Char :=
  if l.getLast? = some '\r' then l.dropLast else l

/-- str::lines(): split at newlines, strip a carriage return before each
newline, and do not yield a final empty line when the string ends with a
newline. -/
def rustLines (s : List Char) : List (List Char) :=
  let parts := splitChar '\n' s
  let body := parts.dropLast.map stripCR
  match parts.getLast? with
  | some [] => body
  | some l => body ++ [l]
  | none => body

/-- Update one of the five-element modifier arrays. -/
def Metadata.setR (md : Metadata) (j : Fin 5) (v : ℚ) : Metadata :=
  { md with modifiers := { md.modifiers with r := Function.update md.modifiers.r j v } }

/-- Update gs. -/
def Metadata.setGS (md : Metadata) (j : Fin 5) (v : ℚ) : Metadata :=
  { md with modifiers := { md.modifiers with gs := Function.update md.modifiers.gs j v } }

/-- Update gi. -/
def Metadata.setGI (md : Metadata) (j : Fin 5) (v : ℚ) : Metadata :=
  { md with modifiers := { md.modifiers with gi := Function.update md.modifiers.gi j v } }

/-- Update o. -/
def Metadata.setO (md : Metadata) (j : Fin 5) (v : ℚ) : Metadata :=
  { md with modifiers := { md.modifiers with o := Function.update md.modifiers.o j v } }

/-- Update s. -/
def Metadata.setS (md : Metadata) (j : Fin 5) (v : ℚ) : Metadata :=
  { md with modifiers := { md.modifiers with s := Function.update md.modifiers.s j v } }

/-- Update i. -/
def Metadata.setI (md : Metadata) (j : Fin 5) (v : ℚ) : Metadata :=
  { md with modifiers := { md.modifiers with i := Function.update md.modifiers.i j v } }

/-- Update ug. -/
def Metadata.setUG (md : Metadata) (j : Fin 5) (v : ℚ) : Metadata :=
  { md with modifiers := { md.modifiers with ug := Function.update md.modifiers.ug j v } }

/-- Parse an f32 value for a field, failing with Parse(line). -/
def parseF32Field (line val : List Char) (f : ℚ → Metadata) : Except MetaError Metadata :=
  match parseF32 val with
  | some q => .ok (f q)
  | none => .error (.Parse line)

/-- The Some(key, value) arms of the match in Metadata::from_bytes (types.rs,
lines 317-435), in source order.  An unrecognized key falls to the source's
catch-all and is an error. -/
def applyKeyValue (md : Metadata) (line key val : List Char) : Except MetaError Metadata :=
  if key = "Calibrated".toList then .ok { md with calibrated := val ≠ "0".toList }
  else if key = "R0".toList then parseF32Field line val (md.setR 0)
  else if key = "R1".toList then parseF32Field line val (md.setR 1)
  else if key = "R2".toList then parseF32Field line val (md.setR 2)
  else if key = "R3".toList then parseF32Field line val (md.setR 3)
  else if key = "R4".toList then parseF32Field line val (md.setR 4)
  else if key = "GS0".toList then parseF32Field line val (md.setGS 0)
  else if key = "GS1".toList then parseF32Field line val (md.setGS 1)
  else if key = "GS2".toList then parseF32Field line val (md.setGS 2)
  else if key = "GS3".toList then parseF32Field line val (md.setGS 3)
  else if key = "GS4".toList then parseF32Field line val (md.setGS 4)
  else if key = "GI0".toList then parseF32Field line val (md.setGI 0)
  else if key = "GI1".toList then parseF32Field line val (md.setGI 1)
  else if key = "GI2".toList then parseF32Field line val (md.setGI 2)
  else if key = "GI3".toList then parseF32Field line val (md.setGI 3)
  else if key = "GI4".toList then parseF32Field line val (md.setGI 4)
  else if key = "O0".toList then parseF32Field line val (md.setO 0)
  else if key = "O1".toList then parseF32Field line val (md.setO 1)
  else if key = "O2".toList then parseF32Field line val (md.setO 2)
  else if key = "O3".toList then parseF32Field line val (md.setO 3)
  else if key = "O4".toList then parseF32Field line val (md.setO 4)
  else if key = "VDD".toList then
    match parseUnsigned 65535 val with
    | some v => .ok { md with vdd := v }
    | none => .error (.Parse line)
  else if key = "HW".toList then
    match parseUnsigned 4294967295 val with
    | some v => .ok { md with hw := v }
    | none => .error (.Parse line)
  else if key = "mode".toList then
    match parseUnsigned 255 val with
    | some 1 => .ok { md with mode := .Ampere }
    | some 2 => .ok { md with mode := .Source }
    | some _ => .error (.Parse line)
    | none => .error (.Parse line)
  else if key = "S0".toList then parseF32Field line val (md.setS 0)
  else if key = "S1".toList then parseF32Field line val (md.setS 1)
  else if key = "S2".toList then parseF32Field line val (md.setS 2)
  else if key = "S3".toList then parseF32Field line val (md.setS 3)
  else if key = "S4".toList then parseF32Field line val (md.setS 4)
  else if key = "I0".toList then parseF32Field line val (md.setI 0)
  else if key = "I1".toList then parseF32Field line val (md.setI 1)
  else if key = "I2".toList then parseF32Field line val (md.setI 2)
  else if key = "I3".toList then parseF32Field line val (md.setI 3)
  else if key = "I4".toList then parseF32Field line val (md.setI 4)
  else if key = "UG0".toList then parseF32Field line val (md.setUG 0)
  else if key = "UG1".toList then parseF32Field line val (md.setUG 1)
  else if key = "UG2".toList then parseF32Field line val (md.setUG 2)
  else if key = "UG3".toList then parseF32Field line val (md.setUG 3)
  else if key = "UG4".toList then parseF32Field line val (md.setUG 4)
  else if key = "IA".toList then
    match parseUnsigned 4294967295 val with
    | some v => .ok { md with ia := v }
    | none => .error (.Parse line)
  else .error (.Parse line)

/-- The line loop of Metadata::from_bytes (types.rs, lines 315-441): a line
that splits at ": " updates the metadata by key; a line equal to END returns
the metadata immediately; any other line is an error; a run-out of lines
returns the metadata. -/
def parseLines : List (List Char) → Metadata → Except MetaError Metadata
  | [], md => .ok md
  | line :: rest, md =>
    match splitOnceColonSpace line with
    | some (key, val) =>
      match applyKeyValue md line key val with
      | .ok md => parseLines rest md
      | .error e => .error e
    | none =>
      if line = "END".toList then .ok md
      else .error (.Parse line)

/-- Metadata::from_bytes (types.rs, lines 305-442) on the decoded character
sequence: the whole input must end with "END\n", then the lines are parsed
starting from the default metadata. -/
def Metadata.from_string (s : List Char) : Except MetaError Metadata :=
  if listEndsWith s ("END\n".toList) = true then parseLines (rustLines s) Metadata.default
  else .error (.Parse s)

/-! ## Helper definitions for the claims -/

/-- The SourceVoltage encoding as the specification words it: clamp to
[800, 5000], let d = mv - 800 + 32, bytes (d / 256 + 3, d mod 256).
Modelled from the spec for the refinement comparison with the source
definition. -/
def sourceVoltageSpecBytes (mv : Nat) : Nat × Nat :=
  let m := max 800 (min mv 5000)
  let d := m - 800 + 32
  (d / 256 + 3, d % 256)

/-- Byte chunk carrying a single sample word with the given counter value in
bits 18..23 and all other bits zero (little-endian bytes). -/
def wordBytesOfCounter (c : Nat) : List Nat := [0, 0, 4 * c, 0]

/-- State invariant of the accumulator: once set, prev_range is in 0..=4 and
expected_counter is in 0..=63. -/
def StateInv (st : AccumulatorState) : Prop :=
  (∀ r, st.prev_range = some r → r ≤ 4) ∧ (∀ c, st.expected_counter = some c → c ≤ 63)

/-- The state invariant holds for whatever state a run of feed_into calls
reaches (vacuous when the run panics). -/
def StateInvOpt (o : Option (MeasurementAccumulator × List Measurement × Nat)) : Prop :=
  ∀ r ∈ o, StateInv r.1.state

/-- Buffer-residue property of a run of feed_into calls from a fresh
accumulator: the internal byte buffer holds exactly the residue modulo 4 of
all bytes fed, hence at most 3 bytes. -/
def BufLenProp (md : Metadata) (bs : List (List Nat)) : Prop :=
  ∀ r ∈ runFeeds (.new md) bs [], r.1.buf.length = (bs.map List.length).sum % 4
    ∧ r.1.buf.length ≤ 3

/-! ## Helper lemmas -/

theorem listEndsWith_iff {α : Type} [DecidableEq α] (l s : List α) :
    listEndsWith l s = true ↔ ∃ p, l = p ++ s := by
  simp only [listEndsWith, Bool.and_eq_true, decide_eq_true_eq]
  constructor
  · rintro ⟨hle, hdrop⟩
    refine ⟨l.take (l.length - s.length), ?_⟩
    conv_lhs => rw [← List.take_append_drop (l.length - s.length) l]
    rw [hdrop]
  · rintro ⟨p, rfl⟩
    refine ⟨by simp, ?_⟩
    have hlen : (p ++ s).length - s.length = p.length := by simp
    rw [hlen, List.drop_left]

theorem matches_either (l : Level) : l.matches .Either = true := by
  cases l <;> rfl

theorem highCount_cons (m : Measurement) (ms : List Measurement) (i : Fin 8) :
    highCount (m :: ms) i
      = (if (m.pins.pin_levels i).is_high then 1 else 0) + highCount ms i := by
  simp only [highCount, List.filter_cons]
  split <;> simp [Nat.add_comm]

theorem combineLoop_eq (ms : List Measurement) :
    ∀ phc count sum, combineLoop ms phc count sum
      = (fun i => phc i + highCount ms i, count + ms.length, sum + sumMicroAmps ms) := by
  induction ms with
  | nil =>
    intro phc count sum
    simp [combineLoop, highCount, sumMicroAmps]
  | cons m ms ih =>
    intro phc count sum
    rw [combineLoop, ih]
    simp only [Prod.mk.injEq]
    refine ⟨funext fun i => ?_, by simp; omega, by simp [sumMicroAmps]; ring⟩
    rw [highCount_cons]
    split <;> omega

theorem spikeFilter_state (st : AccumulatorState) (range : Nat)
    (p4 p : Option ℚ) (adc a : ℚ) (st' : AccumulatorState)
    (h : spikeFilter st range p4 p adc = some (a, st')) :
    st'.prev_range = st.prev_range ∧ st'.expected_counter = st.expected_counter := by
  simp only [spikeFilter] at h
  split at h
  · split at h
    · split at h
      · simp at h
      · obtain ⟨-, rfl⟩ := Option.some.injEq .. ▸ h
        constructor <;>
          simp [apply_ite AccumulatorState.prev_range, apply_ite AccumulatorState.expected_counter]
    · split at h
      · simp at h
      · obtain ⟨-, rfl⟩ := Option.some.injEq .. ▸ h
        constructor <;>
          simp [apply_ite AccumulatorState.prev_range, apply_ite AccumulatorState.expected_counter]
  · obtain ⟨-, rfl⟩ := Option.some.injEq .. ▸ h
    exact ⟨rfl, rfl⟩

theorem get_adc_result_state (md : Metadata) (st : AccumulatorState) (range v : Nat)
    (a : ℚ) (st' : AccumulatorState)
    (h : get_adc_result md st range v = some (a, st')) :
    st'.prev_range = some range ∧ st'.expected_counter = st.expected_counter := by
  simp only [get_adc_result] at h
  split at h
  · split at h
    · simp at h
    · rename_i adc1 state1 heq
      obtain ⟨-, rfl⟩ := Option.some.injEq .. ▸ h
      exact ⟨rfl, (spikeFilter_state _ _ _ _ _ _ _ heq).2⟩
  · simp at h

theorem get_counter_lt (raw : Nat) : get_counter raw < 64 := by
  have h1 : raw &&& generate_mask 6 18 ≤ generate_mask 6 18 := Nat.and_le_right
  have h2 : get_counter raw ≤ generate_mask 6 18 >>> 18 := by
    simp only [get_counter, Nat.shiftRight_eq_div_pow]
    exact Nat.div_le_div_right h1
  have h3 : generate_mask 6 18 >>> 18 = 63 := by decide
  omega

theorem adcStep_inv (md : Metadata) (st : AccumulatorState) (range counter raw : Nat)
    (hrange : range ≤ 4) (hcounter : counter ≤ 63)
    (hexp : ∀ c, st.expected_counter = some c → c ≤ 63)
    (st' : AccumulatorState) (n : Nat) (m : Option Measurement)
    (h : adcStep md st range counter raw = some (st', n, m)) : StateInv st' := by
  simp only [adcStep] at h
  split at h
  · simp at h
  · rename_i amps state1 heq
    obtain ⟨rfl, -⟩ := Option.some.injEq .. ▸ h
    obtain ⟨hprev, hexp1⟩ := get_adc_result_state _ _ _ _ _ _ heq
    constructor
    · intro r hr
      split at hr <;> rw [hprev] at hr <;> (injection hr with hr; omega)
    · intro c hc
      split at hc
      · injection hc with hc; omega
      · rw [hexp1] at hc; exact hexp c hc

theorem stepWord_inv (md : Metadata) (st : AccumulatorState) (raw : Nat)
    (hInv : StateInv st) (st' : AccumulatorState) (n : Nat) (m : Option Measurement)
    (h : stepWord md st raw = some (st', n, m)) : StateInv st' := by
  have hc : get_counter raw ≤ 63 := by have := get_counter_lt raw; omega
  have hmod : (get_counter raw + 1) % 64 ≤ 63 := by omega
  have hexp : ∀ c, ({ st with expected_counter := some ((get_counter raw + 1) % 64)}
      : AccumulatorState).expected_counter = some c → c ≤ 63 := by
    intro c hcc; injection hcc with hcc; omega
  simp only [stepWord] at h
  split at h
  · rename_i prev hprev
    split at h
    · obtain ⟨rfl, -⟩ := Option.some.injEq .. ▸ h
      exact ⟨hInv.1, hexp⟩
    · split at h
      · obtain ⟨rfl, -⟩ := Option.some.injEq .. ▸ h
        exact ⟨hInv.1, hexp⟩
      · exact adcStep_inv _ _ _ _ _ (min_le_right _ 4) hc hexp _ _ _ h
  · exact adcStep_inv _ _ _ _ _ (min_le_right _ 4) hc hexp _ _ _ h

theorem processWords_inv (md : Metadata) :
    ∀ (ws : List Nat) (st : AccumulatorState) (out : List Measurement), StateInv st →
      ∀ st' out' n, processWords md st ws out = some (st', out', n) → StateInv st' := by
  intro ws
  induction ws with
  | nil =>
    intro st out hInv st' out' n h
    obtain ⟨rfl, -⟩ := Option.some.injEq .. ▸ h
    exact hInv
  | cons w ws ih =>
    intro st out hInv st' out' n h
    simp only [processWords] at h
    split at h
    · simp at h
    · rename_i st1 inc m1 heq
      split at h
      · simp at h
      · rename_i st2 out2 n2 heq2
        obtain ⟨rfl, -⟩ := Option.some.injEq .. ▸ h
        exact ih _ _ (stepWord_inv _ _ _ hInv _ _ _ heq) _ _ _ heq2

theorem feedInto_inv (acc : MeasurementAccumulator) (bytes : List Nat)
    (out : List Measurement) (hInv : StateInv acc.state)
    (acc' : MeasurementAccumulator) (out' : List Measurement) (n : Nat)
    (h : feedInto acc bytes out = some (acc', out', n)) : StateInv acc'.state := by
  simp only [feedInto] at h
  split at h
  · obtain ⟨rfl, -⟩ := Option.some.injEq .. ▸ h
    exact hInv
  · split at h
    · simp at h
    · rename_i st1 out1 n1 heq
      obtain ⟨rfl, -⟩ := Option.some.injEq .. ▸ h
      exact processWords_inv _ _ _ _ hInv _ _ _ heq

theorem runFeeds_inv :
    ∀ (bs : List (List Nat)) (acc : MeasurementAccumulator) (out : List Measurement),
      StateInv acc.state → ∀ acc' out' n, runFeeds acc bs out = some (acc', out', n) →
      StateInv acc'.state := by
  intro bs
  induction bs with
  | nil =>
    intro acc out hInv acc' out' n h
    obtain ⟨rfl, -⟩ := Option.some.injEq .. ▸ h
    exact hInv
  | cons b rest ih =>
    intro acc out hInv acc' out' n h
    simp only [runFeeds] at h
    split at h
    · simp at h
    · rename_i acc1 out1 n1 heq
      split at h
      · simp at h
      · rename_i acc2 out2 n2 heq2
        obtain ⟨rfl, -⟩ := Option.some.injEq .. ▸ h
        exact ih _ _ (feedInto_inv _ _ _ hInv _ _ _ heq) _ _ _ heq2

theorem new_state_inv (md : Metadata) : StateInv (MeasurementAccumulator.new md).state :=
  ⟨fun r hr => by simp [MeasurementAccumulator.new] at hr,
   fun c hc => by simp [MeasurementAccumulator.new] at hc⟩

theorem feedInto_empty_eq (acc : MeasurementAccumulator) (out : List Measurement) :
    feedInto acc [] out = some (acc, out, 0) := by
  simp [feedInto]

theorem feedInto_buf (acc : MeasurementAccumulator) (bytes : List Nat)
    (out : List Measurement) (hne : bytes ≠ [])
    (r : MeasurementAccumulator × List Measurement × Nat)
    (h : feedInto acc bytes out = some r) :
    r.1.buf.length = (acc.buf.length + bytes.length) % 4 := by
  simp only [feedInto, if_neg hne] at h
  split at h
  · simp at h
  · rename_i st1 out1 n1 heq
    obtain ⟨rfl⟩ := Option.some.injEq .. ▸ h
    have hmle : (acc.buf ++ bytes).length % 4 ≤ (acc.buf ++ bytes).length :=
      Nat.mod_le _ _
    simp only [List.length_drop, List.length_append]
    omega

theorem runFeeds_buf :
    ∀ (bs : List (List Nat)) (acc : MeasurementAccumulator) (out : List Measurement),
      acc.buf.length < 4 →
      ∀ r ∈ runFeeds acc bs out,
        r.1.buf.length = (acc.buf.length + (bs.map List.length).sum) % 4 := by
  intro bs
  induction bs with
  | nil =>
    intro acc out h4 r hr
    simp only [runFeeds, Option.mem_def, Option.some.injEq] at hr
    subst hr
    simpa using (Nat.mod_eq_of_lt h4).symm
  | cons b rest ih =>
    intro acc out h4 r hr
    simp only [runFeeds] at hr
    split at hr
    · simp at hr
    · rename_i acc1 out1 n1 heq
      split at hr
      · simp at hr
      · rename_i acc2 out2 n2 heq2
        simp only [Option.mem_def, Option.some.injEq] at hr
        subst hr
        by_cases hb : b = []
        · subst hb
          rw [feedInto_empty_eq] at heq
          obtain ⟨rfl, rfl, -⟩ := Option.some.injEq .. ▸ heq
          have := ih acc out h4 (acc2, out2, n2) heq2
          simpa using this
        · have hlen : acc1.buf.length = (acc.buf.length + b.length) % 4 :=
            feedInto_buf acc b out hb (acc1, out1, n1) heq
          have h4' : acc1.buf.length < 4 := by omega
          have := ih acc1 out1 h4' (acc2, out2, n2) heq2
          simp only [List.map_cons, List.sum_cons]
          rw [this, hlen]
          omega

/-! ## Concrete fixtures used by the claim theorems -/

/-- A measurement with pin 0 high and all other pins low, zero current. -/
def mH : Measurement := ⟨0, ⟨fun i => if i = 0 then .High else .Low⟩⟩

/-- A measurement with all pins low, zero current. -/
def mL : Measurement := ⟨0, ⟨fun _ => .Low⟩⟩

/-- The five-sample run with three highs on pin 0. -/
def exm5 : List Measurement := [mH, mH, mH, mL, mL]

/-- The average the reducer computes for exm5 with no missed samples. -/
def q0 : ℚ := sumMicroAmps exm5 / ((exm5.length - 0 : Nat) : ℚ)

/-- The majority-vote pins the reducer computes for exm5. -/
def p0 : LogicPortPins :=
  LogicPortPins.ofBools (fun i => decide (highCount exm5 i > exm5.length / 2))

/-- A pin pattern that is Low on every pin. -/
def patLow : LogicPortPins := ⟨fun _ => .Low⟩

/-- A pin pattern that is Either on every pin. -/
def patEither : LogicPortPins := ⟨fun _ => .Either⟩

/-- An accumulator state expecting counter 11. -/
def stW : AccumulatorState := ⟨none, none, none, 0, 0, some 11⟩

/-! ## Claims -/

/-- C1 (amended): when the filtered set is non-empty and missed is strictly
below the number of combined measurements, combine and combine_matching
return Match with micro_amps equal to the sum of the micro_amps divided by
(count - missed) and the majority-vote pins.  The clamp of the denominator
claimed by the specification does not exist in the code: missed = count makes
the denominator zero and missed > count underflows the usize subtraction (see
the counterexample). -/
theorem chunk_reducer_average :
    (∀ (ms : List Measurement) (missed : Nat), ms ≠ [] → missed < ms.length →
      combine ms missed = some (.Match
        { micro_amps := sumMicroAmps ms / ((ms.length - missed : Nat) : ℚ)
          pins := LogicPortPins.ofBools (fun i => decide (highCount ms i > ms.length / 2)) }))
  ∧ (∀ (ms : List Measurement) (missed : Nat) (pat : LogicPortPins),
      ms.filter (fun m => measurementMatchesPins m pat) ≠ [] →
      missed < (ms.filter (fun m => measurementMatchesPins m pat)).length →
      combine_matching ms missed pat = some (.Match
        { micro_amps := sumMicroAmps (ms.filter (fun m => measurementMatchesPins m pat)) /
            (((ms.filter (fun m => measurementMatchesPins m pat)).length - missed : Nat) : ℚ)
          pins := LogicPortPins.ofBools (fun i =>
            decide (highCount (ms.filter (fun m => measurementMatchesPins m pat)) i >
              (ms.filter (fun m => measurementMatchesPins m pat)).length / 2)) })) := by
  have main : ∀ (ms : List Measurement) (missed : Nat), ms ≠ [] → missed < ms.length →
      combine ms missed = some (.Match
        { micro_amps := sumMicroAmps ms / ((ms.length - missed : Nat) : ℚ)
          pins := LogicPortPins.ofBools (fun i => decide (highCount ms i > ms.length / 2)) }) := by
    intro ms missed hne hlt
    simp only [combine, combineLoop_eq, zero_add]
    rw [if_neg (by simpa using hne), if_pos (Nat.le_of_lt hlt)]
  exact ⟨main, fun ms missed pat hne hlt => main _ _ hne hlt⟩

/-- C1 witness: the amended theorem applied to one measurement with no missed
samples. -/
theorem chunk_reducer_average_witness :
    ([mL] ≠ []) ∧ 0 < [mL].length
  ∧ combine [mL] 0 = some (.Match
      { micro_amps := sumMicroAmps [mL] / (([mL].length - 0 : Nat) : ℚ)
        pins := LogicPortPins.ofBools (fun i => decide (highCount [mL] i > [mL].length / 2)) }) :=
  ⟨by simp, by simp, chunk_reducer_average.1 [mL] 0 (by simp) (by simp)⟩

/-- C1 counterexample: one measurement with missed = 2.  The claim says the
denominator is clamped to 1 and a Match is returned; the code computes
count - missed on usize, which underflows (modelled as none), so no Match
with the clamped average is produced. -/
theorem chunk_reducer_underflow_cex : combine [mL] 2 = none := by decide

/-- C2 (amended): for every word whose 6-bit counter differs from the stored
expected counter Some(prev), no Measurement is produced and the missed count
is incremented by the absolute difference between counter and prev — not by
(counter - prev) mod 64 as the claim states (see the counterexample). -/
theorem missed_count_step (md : Metadata) (st : AccumulatorState) (raw : Nat) (prev : Nat)
    (h1 : st.expected_counter = some prev) (h2 : prev ≠ get_counter raw) :
    stepWord md st raw =
      some ({ st with expected_counter := some ((get_counter raw + 1) % 64) },
        ((get_counter raw : Int) - (prev : Int)).natAbs, none) := by
  simp only [stepWord, h1]
  rcases Nat.lt_trichotomy prev (get_counter raw) with hlt | heq | hgt
  · rw [if_pos hlt]
    simp only [Option.some.injEq, Prod.mk.injEq]
    exact ⟨trivial, by omega, trivial⟩
  · exact absurd heq h2
  · rw [if_neg (by omega), if_pos hgt]
    simp only [Option.some.injEq, Prod.mk.injEq]
    exact ⟨trivial, by omega, trivial⟩

/-- C2 witness: a word with counter 5 against an expected counter 11 yields a
missed increment of 6 and no measurement. -/
theorem missed_count_step_witness :
    (stW.expected_counter = some 11)
  ∧ ((11 : Nat) ≠ get_counter 1310720)
  ∧ stepWord Metadata.default stW 1310720
      = some ({ stW with expected_counter := some ((get_counter 1310720 + 1) % 64) },
          ((get_counter 1310720 : Int) - ((11 : Nat) : Int)).natAbs, none) :=
  ⟨rfl, by decide, missed_count_step Metadata.default stW 1310720 11 rfl (by decide)⟩

/-- C2 counterexample: feeding words with counters 10 then 5 from a fresh
accumulator leaves the expected counter at 11, and the second word reports 6
missed samples (the absolute difference 11 - 5), while the claim's formula
(counter - prev) mod 64 = (5 - 11) mod 64 demands 58. -/
theorem missed_count_modular_cex :
    missedOf (runFeeds (.new Metadata.default) [[0, 0, 40, 0], [0, 0, 20, 0]] []) = some 6
  ∧ (runFeeds (.new Metadata.default) [[0, 0, 40, 0]] []).map
      (fun r => r.1.state.expected_counter) = some (some 11)
  ∧ get_counter (fromLeBytes 0 0 40 0) = 10
  ∧ get_counter (fromLeBytes 0 0 20 0) = 5
  ∧ (5 + 64 - 11) % 64 = 58
  ∧ (6 : Nat) ≠ 58 := by
  exact ⟨by rfl, by rfl, by rfl, by rfl, by rfl, by decide⟩

/-- C3: Command::response_complete for GetMetaData is true exactly when the
buffer ends with the four bytes 0x45 0x4E 0x44 0x0A, as the claim states; but
for every other command the source compares expected_response_len >= buf.len()
— the comparison the claim states, flipped.  Evaluated at the failing input
Command::NoOp with the one-byte buffer [0x00]: the code returns false although
the buffer length (1) is at least the expected response length (0), so the
claim's biconditional demands true.  The source's own doc comment says the
expected response length is used to check whether the whole response was
received, which the flipped comparison does not do. -/
theorem response_complete_evaluation :
    (∀ buf : List Nat, Command.response_complete .GetMetaData buf = true
        ↔ ∃ p, buf = p ++ [0x45, 0x4E, 0x44, 0x0A])
  ∧ Command.expected_response_len .NoOp = 0
  ∧ Command.response_complete .NoOp [0x00] = false
  ∧ [0x00].length ≥ Command.expected_response_len .NoOp := by
  refine ⟨?_, rfl, rfl, by decide⟩
  intro buf
  exact listEndsWith_iff buf _

/-- C4 (amended): Metadata::from_bytes stops at the first END line and returns
Ok, ignoring any trailing lines after it — it does not treat them as an error
as the claim states (see the counterexample).  First conjunct: the line loop
returns Ok immediately at an END line, for arbitrary trailing lines.  Second
conjunct: a buffer ending in "END\n" whose first line is END parses to the
default metadata. -/
theorem metadata_trailing_lines :
    (∀ (junk : List (List Char)) (md : Metadata), parseLines ("END".toList :: junk) md = .ok md)
  ∧ (∀ s : List Char, listEndsWith s ("END\n".toList) = true →
      (rustLines s).head? = some ("END".toList) →
      Metadata.from_string s = .ok Metadata.default) := by
  have hend : ∀ (junk : List (List Char)) (md : Metadata),
      parseLines ("END".toList :: junk) md = .ok md := by
    intro junk md
    rfl
  refine ⟨hend, ?_⟩
  intro s h1 h2
  unfold Metadata.from_string
  rw [if_pos h1]
  cases hr : rustLines s with
  | nil => rw [hr] at h2; simp at h2
  | cons a t =>
    rw [hr] at h2
    simp only [List.head?_cons, Option.some.injEq] at h2
    subst h2
    exact hend t _

/-- C4 witness: the amended theorem applied to the buffer "END\nEND\n". -/
theorem metadata_trailing_lines_witness :
    listEndsWith ("END\nEND\n".toList) ("END\n".toList) = true
  ∧ (rustLines ("END\nEND\n".toList)).head? = some ("END".toList)
  ∧ Metadata.from_string ("END\nEND\n".toList) = .ok Metadata.default :=
  ⟨rfl, rfl, metadata_trailing_lines.2 _ rfl rfl⟩

/-- C4 counterexample: the buffer "END\nEND\n" ends with "END\n" and has a
second line after the first END line, yet parsing succeeds with the default
metadata instead of returning a Parse error as the claim demands. -/
theorem metadata_trailing_lines_cex :
    Metadata.from_string ("END\nEND\n".toList) = .ok Metadata.default
  ∧ listEndsWith ("END\nEND\n".toList) ("END\n".toList) = true
  ∧ rustLines ("END\nEND\n".toList) = ["END".toList, "END".toList] :=
  ⟨rfl, rfl, rfl⟩

/-- C5: SourceVoltage::from_millivolts clamps to [800, 5000] and encodes via
d = mv - 800 + 32 into the bytes (d / 256 + 3, d mod 256) — the source
definition agrees with the specification formula on the whole u16 domain —
and from_millivolts(3300) is the bytes 0x0C 0xE4, so RegulatorSet with that
voltage serializes to 0x0D 0x0C 0xE4. -/
theorem voltage_encoding :
    (∀ mv : Nat, mv ≤ 65535 →
      ((SourceVoltage.from_millivolts mv).raw0, (SourceVoltage.from_millivolts mv).raw1)
        = sourceVoltageSpecBytes mv)
  ∧ SourceVoltage.from_millivolts 3300 = { raw0 := 0x0C, raw1 := 0xE4 }
  ∧ Command.bytesList (.RegulatorSet (.from_millivolts 3300)) = [0x0D, 0x0C, 0xE4] := by
  refine ⟨?_, by decide, by decide⟩
  intro mv _
  have hclamp : (if mv < 800 then 800 else if mv > 5000 then 5000 else mv)
      = max 800 (min mv 5000) := by split_ifs <;> omega
  simp only [SourceVoltage.from_millivolts, sourceVoltageSpecBytes, hclamp]

/-- C5 witness: the refinement equation applied at 3300 millivolts. -/
theorem voltage_encoding_witness :
    (3300 : Nat) ≤ 65535
  ∧ ((SourceVoltage.from_millivolts 3300).raw0, (SourceVoltage.from_millivolts 3300).raw1)
      = sourceVoltageSpecBytes 3300 :=
  ⟨by decide, voltage_encoding.1 3300 (by decide)⟩

/-- C6: feeding the accumulator words with counters 0, 1, ..., 63, 0, 1 (one
feed_into call per word) reports zero missed samples in total, and counters
0, 1, 3 report exactly one; the third conjunct checks that the constructed
byte chunks really carry those counters. -/
theorem counter_wrap_and_gap :
    missedOf (runFeeds (.new Metadata.default)
      ((List.range 64 ++ [0, 1]).map wordBytesOfCounter) []) = some 0
  ∧ missedOf (runFeeds (.new Metadata.default)
      ([0, 1, 3].map wordBytesOfCounter) []) = some 1
  ∧ ∀ c : Fin 64, get_counter (fromLeBytes 0 0 (4 * (c : Nat)) 0) = (c : Nat) :=
  ⟨by rfl, by rfl, by decide⟩

/-- C7: in the chunk reducer the reduced pin i is High if and only if strictly
more than count / 2 of the combined measurements have pin i high; with 5
measurements, exactly 3 highs on pin 0 give High and exactly 2 give Low. -/
theorem majority_vote :
    (∀ (ms : List Measurement) (missed : Nat) (q : ℚ) (pins : LogicPortPins),
      combine ms missed = some (.Match ⟨q, pins⟩) →
      ∀ i : Fin 8, pins.pin_levels i = .High ↔ highCount ms i > ms.length / 2)
  ∧ pinOf (combine [mH, mH, mH, mL, mL] 0) 0 = some .High
  ∧ pinOf (combine [mH, mH, mL, mL, mL] 0) 0 = some .Low := by
  refine ⟨?_, by decide, by decide⟩
  intro ms missed q pins h i
  simp only [combine, combineLoop_eq, zero_add] at h
  by_cases hc : ms.length = 0
  · rw [if_pos hc] at h
    simp at h
  · rw [if_neg hc] at h
    by_cases hm : missed ≤ ms.length
    · rw [if_pos hm] at h
      simp only [Option.some.injEq, MeasurementMatch.Match.injEq, Measurement.mk.injEq] at h
      obtain ⟨-, hpins⟩ := h
      subst hpins
      simp only [LogicPortPins.ofBools]
      by_cases hP : highCount ms i > ms.length / 2
      · simp [hP]
      · simp [hP]
    · rw [if_neg hm] at h
      simp at h

/-- C7 witness: the majority characterization applied to the five-sample run
with three highs on pin 0. -/
theorem majority_vote_witness :
    combine exm5 0 = some (.Match ⟨q0, p0⟩)
  ∧ (p0.pin_levels 0 = .High ↔ highCount exm5 0 > exm5.length / 2) := by
  have h : combine exm5 0 = some (.Match ⟨q0, p0⟩) := by
    simp only [combine, combineLoop_eq, zero_add, q0, p0]
    rw [if_neg (by simp [exm5]), if_pos (by simp [exm5])]
  exact ⟨h, majority_vote.1 exm5 0 q0 p0 h 0⟩

/-- C8: Level::matches is true exactly when one operand is Either or the two
levels are equal; a pattern with pin 0 Low rejects any measurement whose pin 0
is High; a pattern that is Either everywhere filters nothing, so
combine_matching coincides with combine. -/
theorem level_matches_filter :
    (∀ a b : Level, a.matches b = true ↔ (a = .Either ∨ b = .Either ∨ a = b))
  ∧ (∀ (pat : LogicPortPins) (m : Measurement), pat.pin_levels 0 = .Low →
      m.pins.pin_levels 0 = .High → measurementMatchesPins m pat = false)
  ∧ (∀ (ms : List Measurement) (missed : Nat) (pat : LogicPortPins),
      (∀ i, pat.pin_levels i = .Either) → combine_matching ms missed pat = combine ms missed) := by
  refine ⟨fun a b => by cases a <;> cases b <;> decide, ?_, ?_⟩
  · intro pat m hp hm
    simp only [measurementMatchesPins, decide_eq_false_iff_not]
    intro hall
    have hmatch := hall 0
    rw [hp, hm] at hmatch
    simp [Level.matches] at hmatch
  · intro ms missed pat hpat
    have hfilter : ms.filter (fun m => measurementMatchesPins m pat) = ms := by
      apply List.filter_eq_self.mpr
      intro m hm
      simp only [measurementMatchesPins, decide_eq_true_eq]
      intro i
      rw [hpat i]
      exact matches_either _
    unfold combine_matching
    rw [hfilter]

/-- C8 witness: a Low pattern rejects a pin-0-high measurement, and an
all-Either pattern keeps everything. -/
theorem level_matches_filter_witness :
    patLow.pin_levels 0 = .Low
  ∧ mH.pins.pin_levels 0 = .High
  ∧ measurementMatchesPins mH patLow = false
  ∧ (∀ i, patEither.pin_levels i = .Either)
  ∧ combine_matching [mH] 0 patEither = combine [mH] 0 :=
  ⟨rfl, rfl, level_matches_filter.2.1 patLow mH rfl rfl, fun _ => rfl,
   level_matches_filter.2.2 [mH] 0 patEither (fun _ => rfl)⟩

/-- C9: across every sequence of feed_into calls from a fresh accumulator, the
reached state (when the run does not panic) has prev_range in 0..=4 and
expected_counter in 0..=63; moreover for every raw word the extracted counter
is at most 63 and the clamped range at most 4. -/
theorem accumulator_state_invariant :
    (∀ (md : Metadata) (bs : List (List Nat)), StateInvOpt (runFeeds (.new md) bs []))
  ∧ (∀ raw : Nat, get_counter raw ≤ 63 ∧ min (get_range raw) 4 ≤ 4) := by
  constructor
  · intro md bs r hr
    obtain ⟨acc, out, n⟩ := r
    exact runFeeds_inv bs _ [] (new_state_inv md) acc out n hr
  · intro raw
    exact ⟨by have := get_counter_lt raw; omega, min_le_right _ 4⟩

/-- C9 witness: the invariant holds after feeding one whole zero word. -/
theorem accumulator_state_invariant_witness :
    StateInvOpt (runFeeds (.new Metadata.default) [[0, 0, 0, 0]] []) :=
  accumulator_state_invariant.1 Metadata.default [[0, 0, 0, 0]]

/-- C10: feed_into with an empty byte slice returns 0 and changes nothing, and
across every sequence of feed_into calls from a fresh accumulator the internal
byte buffer holds exactly the residue modulo 4 of all bytes fed so far, hence
at most 3 leftover bytes. -/
theorem whole_word_consumption :
    (∀ (acc : MeasurementAccumulator) (out : List Measurement),
      feedInto acc [] out = some (acc, out, 0))
  ∧ (∀ (md : Metadata) (bs : List (List Nat)), BufLenProp md bs) := by
  refine ⟨feedInto_empty_eq, ?_⟩
  intro md bs
  unfold BufLenProp
  intro r hr
  have h0 : (MeasurementAccumulator.new md).buf.length < 4 := by
    simp [MeasurementAccumulator.new]
  have hres := runFeeds_buf bs _ [] h0 r hr
  constructor
  · simpa [MeasurementAccumulator.new] using hres
  · have hres0 : r.1.buf.length = (0 + (bs.map List.length).sum) % 4 := hres
    omega

/-- C10 witness: the empty-feed equation and the buffer-residue property on a
five-byte feed. -/
theorem whole_word_consumption_witness :
    feedInto (.new Metadata.default) [] [] = some (.new Metadata.default, [], 0)
  ∧ BufLenProp Metadata.default [[1, 2, 3, 4, 5]] :=
  ⟨whole_word_consumption.1 _ _, whole_word_consumption.2 Metadata.default [[1, 2, 3, 4, 5]]⟩
